import Mathlib

/-!
Shallow embedding of the order-controller of this repository
(package `controller`: `Order`, `Bot`, `OrderController` and their
operations) together with a verification of its queueing, assignment
and preemption properties.

Concurrency plumbing of the source (mutexes, channels, goroutines) is
not part of the state: the registry operations are modelled as pure
state transformers applied in a sequential interleaving, `time.Now()`
is modelled by a logical clock `now : Nat` carried in the state, and a
worker's completion tick is an explicit `complete` event naming the
worker.  Timestamp fields use `Option Nat`: `none` plays the role of
Go's zero `time.Time`.
-/

namespace FeedMe

/-- Priority class of an order (`OrderType` in the source):
`normal` (`OrderTypeNormal`) or `vip` (`OrderTypeVIP`). -/
inductive OrderType
  | normal
  | vip
deriving DecidableEq

/-- Lifecycle state of an order (`OrderStatus` in the source). -/
inductive OrderStatus
  | pending
  | processing
  | complete
deriving DecidableEq

/-- An order (`Order` in the source).  `botID = 0` is the Go zero value
of the `BotID` field, used when no bot owns the order. -/
structure Order where
  id : Nat
  type : OrderType
  status : OrderStatus
  botID : Nat
  created : Option Nat
  started : Option Nat
  completed : Option Nat
deriving DecidableEq

/-- Status of a bot (`BotStatus` in the source). -/
inductive BotStatus
  | idle
  | processing
deriving DecidableEq

/-- A bot (`Bot` in the source).  The `stopChan` and per-bot mutex are
concurrency plumbing and carry no state relevant to the claims. -/
structure Bot where
  id : Nat
  status : BotStatus
  order : Option Order
deriving DecidableEq

/-- The controller state (`OrderController` in the source).  The Go
`orders` field accumulates a pointer to every order ever created; since
the claims only need the set of created ids, it is modelled as the list
of created ids.  `now` is the logical clock standing in for
`time.Now()`. -/
structure OrderController where
  orders : List Nat
  pendingOrders : List Order
  completedOrders : List Order
  bots : List Bot
  nextOrderID : Nat
  nextBotID : Nat
  now : Nat
deriving DecidableEq

/-- The loop of `insertVIPOrder`: `insertIndex` starts at 0 and is set
to `i + 1` for every index `i` holding a VIP order, so the result is
one past the last VIP index, or 0 when no VIP order is pending. -/
def vipInsertIndex : List Order → Nat
  | [] => 0
  | o :: rest =>
    if vipInsertIndex rest = 0 then (if o.type = OrderType.vip then 1 else 0)
    else vipInsertIndex rest + 1

/-- `insertVIPOrder`: splice the order into the pending queue at
`vipInsertIndex` (after all VIP orders, before all normal orders). -/
def insertVIPOrder (order : Order) (pending : List Order) : List Order :=
  let insertIndex := vipInsertIndex pending
  pending.take insertIndex ++ [order] ++ pending.drop insertIndex

/-- `insertOrderToPending`: VIP orders go through `insertVIPOrder`,
normal orders are appended to the end of the pending queue. -/
def insertOrderToPending (order : Order) (pending : List Order) : List Order :=
  match order.type with
  | OrderType.vip => insertVIPOrder order pending
  | OrderType.normal => pending ++ [order]

/-- The order fields written when a bot picks an order up inside
`assignOrdersToBots`: status `PROCESSING`, `BotID` of the bot, and
`Started = time.Now()`. -/
def assignedOrder (now : Nat) (b : Bot) (o : Order) : Order :=
  { o with status := OrderStatus.processing, botID := b.id, started := some now }

/-- The loop of `assignOrdersToBots`: walk the pool in creation order;
an idle bot with a non-empty pending queue pops the head and starts
processing it; every other bot is left unchanged. -/
def assignBots (now : Nat) : List Bot → List Order → List Bot × List Order
  | [], pending => ([], pending)
  | b :: bs, pending =>
    if b.status = BotStatus.idle then
      match pending with
      | [] =>
        let r := assignBots now bs []
        (b :: r.1, r.2)
      | o :: rest =>
        let o2 := assignedOrder now b o
        let b2 : Bot := { b with status := BotStatus.processing, order := some o2 }
        let r := assignBots now bs rest
        (b2 :: r.1, r.2)
    else
      let r := assignBots now bs pending
      (b :: r.1, r.2)

/-- `assignOrdersToBots` on the controller state. -/
def assignOrdersToBots (oc : OrderController) : OrderController :=
  let r := assignBots oc.now oc.bots oc.pendingOrders
  { oc with bots := r.1, pendingOrders := r.2 }

/-- A freshly created order, as built by `CreateNormalOrder` and
`CreateVIPOrder`: status `PENDING`, zero `BotID`, `Created` set. -/
def newOrder (id : Nat) (t : OrderType) (now : Nat) : Order :=
  { id := id, type := t, status := OrderStatus.pending, botID := 0,
    created := some now, started := none, completed := none }

/-- `CreateNormalOrder`: allocate the next id, append the new pending
order to the registry and to the tail of the pending queue, then run
the assignment pass. -/
def createNormalOrder (oc : OrderController) : OrderController :=
  let order := newOrder oc.nextOrderID OrderType.normal oc.now
  assignOrdersToBots
    { oc with
      nextOrderID := oc.nextOrderID + 1
      orders := oc.orders ++ [order.id]
      pendingOrders := oc.pendingOrders ++ [order] }

/-- `CreateVIPOrder`: allocate the next id, append to the registry,
insert into the pending queue via `insertVIPOrder`, then run the
assignment pass. -/
def createVIPOrder (oc : OrderController) : OrderController :=
  let order := newOrder oc.nextOrderID OrderType.vip oc.now
  assignOrdersToBots
    { oc with
      nextOrderID := oc.nextOrderID + 1
      orders := oc.orders ++ [order.id]
      pendingOrders := insertVIPOrder order oc.pendingOrders }

/-- `AddBot`: allocate the next bot id, append an idle bot to the pool
tail, then run the assignment pass. -/
def addBot (oc : OrderController) : OrderController :=
  assignOrdersToBots
    { oc with
      nextBotID := oc.nextBotID + 1
      bots := oc.bots ++ [{ id := oc.nextBotID, status := BotStatus.idle, order := none }] }

/-- `removeBotFromList`: remove and return the newest bot (last in the
slice); `none` when the pool is empty. -/
def removeBotFromList (oc : OrderController) : Option Bot × OrderController :=
  match oc.bots.getLast? with
  | none => (none, oc)
  | some bot => (some bot, { oc with bots := oc.bots.dropLast })

/-- `stopBotProcessing`: when the bot is processing and holds an order,
reset that order to `PENDING` with `BotID = 0` and return it; otherwise
report the bot idle.  (The send on `stopChan` is plumbing.) -/
def stopBotProcessing (bot : Bot) : Option Order :=
  match bot.status, bot.order with
  | BotStatus.processing, some o =>
    some { o with status := OrderStatus.pending, botID := 0 }
  | _, _ => none

/-- `handleProcessingBotRemoval`: reinsert the preempted order into the
pending queue with its priority rule, then run the assignment pass. -/
def handleProcessingBotRemoval (oc : OrderController) (order : Order) : OrderController :=
  assignOrdersToBots
    { oc with pendingOrders := insertOrderToPending order oc.pendingOrders }

/-- `RemoveBot`: pop the newest bot from the pool (no-op on an empty
pool); if it was processing, requeue its order, otherwise just run the
assignment pass (`handleIdleBotRemoval`). -/
def removeBot (oc : OrderController) : OrderController :=
  match removeBotFromList oc with
  | (none, _) => oc
  | (some bot, oc1) =>
    match stopBotProcessing bot with
    | none => assignOrdersToBots oc1
    | some order => handleProcessingBotRemoval oc1 order

/-- `completeOrderProcessing`: when the bot holds an order, mark it
`COMPLETE` with `Completed = time.Now()`, clear the bot's slot and set
the bot idle; `none` when the bot has no order. -/
def completeOrderProcessing (bot : Bot) (now : Nat) : Option (Bot × Order) :=
  match bot.order with
  | none => none
  | some o =>
    some ({ bot with order := none, status := BotStatus.idle },
          { o with status := OrderStatus.complete, completed := some now })

/-- `finalizeOrderCompletion`: append the completed order to the
completed set, then run the assignment pass. -/
def finalizeOrderCompletion (oc : OrderController) (order : Order) : OrderController :=
  assignOrdersToBots { oc with completedOrders := oc.completedOrders ++ [order] }

/-- Completion tick of the goroutine owned by the bot with the given
id, while that bot is still in the pool: apply `completeOrderProcessing`
to it in place.  Returns the updated pool and the completed order. -/
def completeInBots (now : Nat) (botID : Nat) : List Bot → List Bot × Option Order
  | [] => ([], none)
  | b :: bs =>
    if b.id = botID then
      match completeOrderProcessing b now with
      | none => (b :: bs, none)
      | some r => (r.1 :: bs, some r.2)
    else
      let r := completeInBots now botID bs
      (b :: r.1, r.2)

/-- The duration-elapsed branch of `processOrder` for the bot with the
given id: `completeOrderProcessing` followed by
`finalizeOrderCompletion`.  A no-op when no such bot holds an order
(the goroutine of a removed bot is stopped through its channel). -/
def completeBot (oc : OrderController) (botID : Nat) : OrderController :=
  match completeInBots oc.now botID oc.bots with
  | (_, none) => oc
  | (bots2, some o) => finalizeOrderCompletion { oc with bots := bots2 } o

/-- The duration-elapsed branch of `processOrder` taken by a goroutine
whose bot was already removed from the pool: Go's `select` may pick the
ticker case even when the stop signal is ready, and since
`stopBotProcessing` never clears `bot.Order`, `completeOrderProcessing`
on the captured bot still finds the order and reports it completed. -/
def raceTimerWins (oc : OrderController) (bot : Bot) : OrderController :=
  match completeOrderProcessing bot oc.now with
  | none => oc
  | some r => finalizeOrderCompletion oc r.2

/-- `NewOrderController`: empty collections, order ids from 1001, bot
ids from 1. -/
def initController : OrderController :=
  { orders := [], pendingOrders := [], completedOrders := [], bots := [],
    nextOrderID := 1001, nextBotID := 1, now := 0 }

/-- An externally driven event of the system. -/
inductive Event
  | createNormal
  | createVIP
  | addBot
  | removeBot
  | complete (botID : Nat)
deriving DecidableEq

/-- One event: the logical clock advances, then the corresponding
operation of the source runs. -/
def step (e : Event) (oc : OrderController) : OrderController :=
  let oc1 := { oc with now := oc.now + 1 }
  match e with
  | Event.createNormal => createNormalOrder oc1
  | Event.createVIP => createVIPOrder oc1
  | Event.addBot => addBot oc1
  | Event.removeBot => removeBot oc1
  | Event.complete botID => completeBot oc1 botID

/-- Run a sequence of events from the initial controller. -/
def run (evs : List Event) : OrderController :=
  evs.foldl (fun s e => step e s) initController

/-- Observer: the pending queue restricted to one priority class. -/
def classFilter (t : OrderType) (l : List Order) : List Order :=
  l.filter (fun o => o.type == t)

/-- Observer: decidable form of the VIP-prefix / normal-suffix
partition invariant of the pending queue. -/
def partitionedB : List Order → Bool
  | [] => true
  | o :: rest =>
    if o.type = OrderType.vip then partitionedB rest
    else rest.all (fun x => x.type == OrderType.normal)

/-- Observer: the idle bots of a pool, in pool order. -/
def idleBots (bots : List Bot) : List Bot :=
  bots.filter (fun b => b.status == BotStatus.idle)

/-- Observer: number of idle bots. -/
def countIdle (bots : List Bot) : Nat :=
  (idleBots bots).length

/-- Observer: the (bot id, held order) pairs of the bots that went from
idle to processing between two pool snapshots of equal length. -/
def newAssignments (bots bots2 : List Bot) : List (Nat × Option Order) :=
  (bots.zip bots2).filterMap (fun p =>
    if p.1.status == BotStatus.idle && p.2.status == BotStatus.processing
    then some (p.2.id, p.2.order) else none)

/-- Observer: ids of the orders held in bot slots, in pool order. -/
def slotIdList (bots : List Bot) : List Nat :=
  bots.filterMap (fun b => b.order.map Order.id)

/-- Observer: ids of all orders across the three collections, pending
first, then bot slots, then completed. -/
def liveIdList (oc : OrderController) : List Nat :=
  oc.pendingOrders.map Order.id ++ slotIdList oc.bots ++ oc.completedOrders.map Order.id

/-- Invariant of an order sitting in the pending queue: status
`PENDING` and the zero `BotID` sentinel. -/
def pendingOK (o : Order) : Prop :=
  o.status = OrderStatus.pending ∧ o.botID = 0

/-- Invariant of an order in the completed set: status `COMPLETE` and a
real (positive) `BotID` left from the bot that completed it. -/
def completedOK (o : Order) : Prop :=
  o.status = OrderStatus.complete ∧ 1 ≤ o.botID

/-- Invariant of a bot in the pool: its current-task slot is filled iff
it is processing, and a held order points back at the bot. -/
def slotOK (b : Bot) : Prop :=
  match b.order with
  | some o => b.status = BotStatus.processing ∧
      o.status = OrderStatus.processing ∧ o.botID = b.id
  | none => b.status = BotStatus.idle

/-- The state invariant maintained by every operation: pending queue
partitioned VIP-prefix / normal-suffix; pending orders unowned and
`PENDING`; bot slots consistent; completed orders `COMPLETE` with the
completing bot recorded; bot ids strictly increasing, positive and
below the allocator; every created id in exactly one collection; ids
unique and below the order allocator. -/
def Inv (s : OrderController) : Prop :=
  partitionedB s.pendingOrders = true ∧
  (∀ o ∈ s.pendingOrders, pendingOK o) ∧
  (∀ b ∈ s.bots, slotOK b ∧ 1 ≤ b.id) ∧
  (∀ o ∈ s.completedOrders, completedOK o) ∧
  (s.bots.map Bot.id).Pairwise (fun a b => a < b) ∧
  (∀ i ∈ s.bots.map Bot.id, i < s.nextBotID) ∧
  1 ≤ s.nextBotID ∧
  ((liveIdList s : Multiset Nat) = (s.orders : Multiset Nat)) ∧
  s.orders.Nodup ∧
  (∀ i ∈ s.orders, i < s.nextOrderID)

/-! ### Lemmas about the VIP insertion index -/

theorem vii_le_length (l : List Order) : vipInsertIndex l ≤ l.length := by
  induction l with
  | nil => simp [vipInsertIndex]
  | cons o rest ih =>
    simp only [vipInsertIndex, List.length_cons]
    split
    · split <;> omega
    · omega

theorem vii_zero_all_normal {l : List Order} (h : vipInsertIndex l = 0) :
    ∀ x ∈ l, x.type = OrderType.normal := by
  induction l with
  | nil => simp
  | cons o rest ih =>
    simp only [vipInsertIndex] at h
    split at h
    · rename_i hr
      split at h
      · omega
      · rename_i ho
        intro x hx
        rcases List.mem_cons.mp hx with hx | hx
        · subst hx
          cases hty : x.type
          · rfl
          · exact absurd hty ho
        · exact ih hr x hx
    · omega

theorem all_normal_vii_zero {l : List Order}
    (h : ∀ x ∈ l, x.type = OrderType.normal) : vipInsertIndex l = 0 := by
  induction l with
  | nil => rfl
  | cons o rest ih =>
    have hrest : vipInsertIndex rest = 0 := ih fun x hx => h x (List.mem_cons_of_mem _ hx)
    have ho : o.type = OrderType.normal := h o (List.mem_cons_self o rest)
    simp [vipInsertIndex, hrest, ho]

theorem drop_vii_all_normal (l : List Order) :
    ∀ x ∈ l.drop (vipInsertIndex l), x.type = OrderType.normal := by
  induction l with
  | nil => simp
  | cons o rest ih =>
    simp only [vipInsertIndex]
    split
    · rename_i hr
      split
      · rename_i ho
        simpa using vii_zero_all_normal hr
      · rename_i ho
        intro x hx
        rcases List.mem_cons.mp (by simpa using hx) with hx | hx
        · subst hx
          cases hty : x.type
          · rfl
          · exact absurd hty ho
        · exact vii_zero_all_normal hr x hx
    · simpa using ih

theorem vii_pos_last_vip {l : List Order} (h : vipInsertIndex l ≠ 0) :
    ∃ x, l[vipInsertIndex l - 1]? = some x ∧ x.type = OrderType.vip := by
  induction l with
  | nil => simp [vipInsertIndex] at h
  | cons o rest ih =>
    by_cases hr : vipInsertIndex rest = 0
    · by_cases ho : o.type = OrderType.vip
      · refine ⟨o, ?_, ho⟩
        simp [vipInsertIndex, hr, ho]
      · exact absurd (by simp [vipInsertIndex, hr, ho]) h
    · obtain ⟨x, hx, hty⟩ := ih hr
      refine ⟨x, ?_, hty⟩
      simp only [vipInsertIndex, if_neg hr]
      have h1 : vipInsertIndex rest + 1 - 1 = (vipInsertIndex rest - 1) + 1 := by omega
      rw [h1]
      simpa using hx

/-! ### Lemmas about class filters and the partition invariant -/

theorem type_not_vip {t : OrderType} (h : ¬t = OrderType.vip) : t = OrderType.normal := by
  cases t
  · rfl
  · exact absurd rfl h

theorem filter_drop {α : Type} (p : α → Bool) (l : List α) (k : Nat) :
    ∃ j, (l.drop k).filter p = (l.filter p).drop j := by
  induction l generalizing k with
  | nil => exact ⟨0, by simp⟩
  | cons x xs ih =>
    cases k with
    | zero => exact ⟨0, rfl⟩
    | succ k =>
      obtain ⟨j, hj⟩ := ih k
      by_cases hp : p x
      · exact ⟨j + 1, by simpa [hp] using hj⟩
      · exact ⟨j, by simpa [hp] using hj⟩

theorem classFilter_take_vii (l : List Order) :
    classFilter OrderType.vip l = classFilter OrderType.vip (l.take (vipInsertIndex l)) := by
  unfold classFilter
  conv_lhs => rw [← List.take_append_drop (vipInsertIndex l) l]
  rw [List.filter_append]
  have hnil : (l.drop (vipInsertIndex l)).filter (fun o => o.type == OrderType.vip) = [] := by
    rw [List.filter_eq_nil_iff]
    intro x hx
    have := drop_vii_all_normal l x hx
    simp [this]
  simp [hnil]

theorem classFilter_insertVIP_vip {o : Order} (l : List Order)
    (ho : o.type = OrderType.vip) :
    classFilter OrderType.vip (insertVIPOrder o l) =
      classFilter OrderType.vip l ++ [o] := by
  unfold insertVIPOrder
  show classFilter OrderType.vip (l.take (vipInsertIndex l) ++ [o] ++ l.drop (vipInsertIndex l)) = _
  unfold classFilter
  rw [List.filter_append, List.filter_append]
  have hnil : (l.drop (vipInsertIndex l)).filter (fun o => o.type == OrderType.vip) = [] := by
    rw [List.filter_eq_nil_iff]
    intro x hx
    have := drop_vii_all_normal l x hx
    simp [this]
  rw [hnil]
  have h1 := classFilter_take_vii l
  unfold classFilter at h1
  rw [← h1]
  simp [ho]

theorem classFilter_insertVIP_normal {o : Order} (l : List Order)
    (ho : o.type = OrderType.vip) :
    classFilter OrderType.normal (insertVIPOrder o l) =
      classFilter OrderType.normal l := by
  unfold insertVIPOrder classFilter
  conv_rhs => rw [← List.take_append_drop (vipInsertIndex l) l]
  rw [List.filter_append, List.filter_append, List.filter_append]
  simp [ho]

theorem classFilter_insert (t : OrderType) (o : Order) (l : List Order) :
    classFilter t (insertOrderToPending o l) =
      classFilter t l ++ (if o.type = t then [o] else []) := by
  cases hty : o.type with
  | normal =>
    unfold insertOrderToPending
    rw [hty]
    cases t with
    | normal => simp [classFilter, List.filter_append, hty]
    | vip => simp [classFilter, List.filter_append, hty]
  | vip =>
    unfold insertOrderToPending
    rw [hty]
    cases t with
    | normal =>
      rw [classFilter_insertVIP_normal l hty]
      simp [hty]
    | vip =>
      rw [classFilter_insertVIP_vip l hty]
      simp [hty]

theorem partitionedB_all_normal {l : List Order}
    (h : ∀ x ∈ l, x.type = OrderType.normal) : partitionedB l = true := by
  cases l with
  | nil => rfl
  | cons o rest =>
    have ho := h o (List.mem_cons_self o rest)
    have : partitionedB (o :: rest) =
        rest.all (fun x => x.type == OrderType.normal) := by
      simp [partitionedB, ho]
    rw [this, List.all_eq_true]
    intro x hx
    simp [h x (List.mem_cons_of_mem _ hx)]

theorem partitionedB_tail {o : Order} {rest : List Order}
    (h : partitionedB (o :: rest) = true) : partitionedB rest = true := by
  by_cases ho : o.type = OrderType.vip
  · simpa [partitionedB, ho] using h
  · have hall : rest.all (fun x => x.type == OrderType.normal) = true := by
      simpa [partitionedB, ho] using h
    rw [List.all_eq_true] at hall
    exact partitionedB_all_normal fun x hx => by simpa using hall x hx

theorem partitionedB_drop {l : List Order} (k : Nat)
    (h : partitionedB l = true) : partitionedB (l.drop k) = true := by
  induction l generalizing k with
  | nil => simp [partitionedB]
  | cons o rest ih =>
    cases k with
    | zero => exact h
    | succ k => exact ih k (partitionedB_tail h)

theorem partitionedB_decomp {l : List Order} (h : partitionedB l = true) :
    ∃ v n, l = v ++ n ∧ (∀ x ∈ v, x.type = OrderType.vip) ∧
      (∀ x ∈ n, x.type = OrderType.normal) := by
  induction l with
  | nil => exact ⟨[], [], rfl, by simp, by simp⟩
  | cons o rest ih =>
    by_cases ho : o.type = OrderType.vip
    · obtain ⟨v, n, hl, hv, hn⟩ := ih (partitionedB_tail h)
      refine ⟨o :: v, n, by simp [hl], ?_, hn⟩
      intro x hx
      rcases List.mem_cons.mp hx with hx | hx
      · exact hx ▸ ho
      · exact hv x hx
    · have hall : rest.all (fun x => x.type == OrderType.normal) = true := by
        simpa [partitionedB, ho] using h
      rw [List.all_eq_true] at hall
      refine ⟨[], o :: rest, by simp, by simp, ?_⟩
      intro x hx
      rcases List.mem_cons.mp hx with hx | hx
      · exact hx ▸ type_not_vip ho
      · simpa using hall x hx

theorem partitionedB_of_decomp {v n : List Order}
    (hv : ∀ x ∈ v, x.type = OrderType.vip)
    (hn : ∀ x ∈ n, x.type = OrderType.normal) :
    partitionedB (v ++ n) = true := by
  induction v with
  | nil => exact partitionedB_all_normal hn
  | cons o v' ih =>
    have ho := hv o (List.mem_cons_self o v')
    have hrec := ih fun x hx => hv x (List.mem_cons_of_mem _ hx)
    simpa [partitionedB, ho] using hrec

theorem vii_decomp {v n : List Order}
    (hv : ∀ x ∈ v, x.type = OrderType.vip)
    (hn : ∀ x ∈ n, x.type = OrderType.normal) :
    vipInsertIndex (v ++ n) = v.length := by
  induction v with
  | nil => exact all_normal_vii_zero hn
  | cons o v' ih =>
    have ho := hv o (List.mem_cons_self o v')
    have hrec := ih fun x hx => hv x (List.mem_cons_of_mem _ hx)
    show vipInsertIndex (o :: (v' ++ n)) = v'.length + 1
    by_cases hz : vipInsertIndex (v' ++ n) = 0
    · rw [hrec] at hz
      simp [vipInsertIndex, hrec, hz, ho]
    · simp only [vipInsertIndex]
      rw [if_neg hz, hrec]

theorem insertVIPOrder_decomp (o : Order) {v n : List Order}
    (hv : ∀ x ∈ v, x.type = OrderType.vip)
    (hn : ∀ x ∈ n, x.type = OrderType.normal) :
    insertVIPOrder o (v ++ n) = v ++ [o] ++ n := by
  have hdef : insertVIPOrder o (v ++ n) =
      List.take (vipInsertIndex (v ++ n)) (v ++ n) ++ [o] ++
        List.drop (vipInsertIndex (v ++ n)) (v ++ n) := rfl
  rw [hdef, vii_decomp hv hn, List.take_left, List.drop_left]

theorem partitionedB_insertVIP {o : Order} {l : List Order}
    (h : partitionedB l = true) (ho : o.type = OrderType.vip) :
    partitionedB (insertVIPOrder o l) = true := by
  obtain ⟨v, n, hl, hv, hn⟩ := partitionedB_decomp h
  subst hl
  rw [insertVIPOrder_decomp o hv hn]
  have hv' : ∀ x ∈ v ++ [o], x.type = OrderType.vip := by
    intro x hx
    rcases List.mem_append.mp hx with hx | hx
    · exact hv x hx
    · simpa using (List.mem_singleton.mp hx) ▸ ho
  rw [List.append_assoc v [o] n, ← List.append_assoc]
  exact partitionedB_of_decomp hv' hn

theorem partitionedB_insert {o : Order} {l : List Order}
    (h : partitionedB l = true) :
    partitionedB (insertOrderToPending o l) = true := by
  unfold insertOrderToPending
  cases hty : o.type with
  | vip => exact partitionedB_insertVIP h hty
  | normal =>
    obtain ⟨v, n, hl, hv, hn⟩ := partitionedB_decomp h
    subst hl
    rw [List.append_assoc]
    refine partitionedB_of_decomp hv ?_
    intro x hx
    rcases List.mem_append.mp hx with hx | hx
    · exact hn x hx
    · exact (List.mem_singleton.mp hx) ▸ hty

/-! ### Lemmas about the assignment pass -/

theorem assignBots_nil (now : Nat) (p : List Order) :
    assignBots now [] p = ([], p) := rfl

theorem assignBots_cons_idle (now : Nat) (b : Bot) (bs : List Bot)
    (o : Order) (rest : List Order) (hb : b.status = BotStatus.idle) :
    assignBots now (b :: bs) (o :: rest) =
      ({ b with
          status := BotStatus.processing
          order := some (assignedOrder now b o) } :: (assignBots now bs rest).1,
        (assignBots now bs rest).2) := by
  simp [assignBots, hb]

theorem assignBots_cons_idle_nil (now : Nat) (b : Bot) (bs : List Bot)
    (hb : b.status = BotStatus.idle) :
    assignBots now (b :: bs) [] =
      (b :: (assignBots now bs []).1, (assignBots now bs []).2) := by
  simp [assignBots, hb]

theorem assignBots_cons_busy (now : Nat) (b : Bot) (bs : List Bot)
    (p : List Order) (hb : ¬b.status = BotStatus.idle) :
    assignBots now (b :: bs) p =
      (b :: (assignBots now bs p).1, (assignBots now bs p).2) := by
  simp [assignBots, hb]

theorem assignBots_pending_nil (now : Nat) (bots : List Bot) :
    assignBots now bots [] = (bots, []) := by
  induction bots with
  | nil => rfl
  | cons b bs ih =>
    by_cases hb : b.status = BotStatus.idle
    · rw [assignBots_cons_idle_nil now b bs hb, ih]
    · rw [assignBots_cons_busy now b bs [] hb, ih]

theorem countIdle_cons_idle {b : Bot} (bs : List Bot)
    (hb : b.status = BotStatus.idle) :
    countIdle (b :: bs) = countIdle bs + 1 := by
  simp [countIdle, idleBots, List.filter_cons, hb]

theorem countIdle_cons_busy {b : Bot} (bs : List Bot)
    (hb : ¬b.status = BotStatus.idle) :
    countIdle (b :: bs) = countIdle bs := by
  simp [countIdle, idleBots, List.filter_cons, hb]

theorem assignBots_snd (now : Nat) (bots : List Bot) (pending : List Order) :
    (assignBots now bots pending).2 =
      pending.drop (min (countIdle bots) pending.length) := by
  induction bots generalizing pending with
  | nil => simp [assignBots_nil, countIdle, idleBots]
  | cons b bs ih =>
    by_cases hb : b.status = BotStatus.idle
    · cases pending with
      | nil => simp [assignBots_pending_nil]
      | cons o rest =>
        rw [assignBots_cons_idle now b bs o rest hb]
        rw [countIdle_cons_idle bs hb]
        simp only [List.length_cons, Nat.succ_min_succ, List.drop_succ_cons]
        exact ih rest
    · rw [assignBots_cons_busy now b bs pending hb, countIdle_cons_busy bs hb]
      exact ih pending

theorem assignBots_map_id (now : Nat) (bots : List Bot) (pending : List Order) :
    (assignBots now bots pending).1.map Bot.id = bots.map Bot.id := by
  induction bots generalizing pending with
  | nil => simp [assignBots_nil]
  | cons b bs ih =>
    by_cases hb : b.status = BotStatus.idle
    · cases pending with
      | nil => simp [assignBots_pending_nil]
      | cons o rest =>
        rw [assignBots_cons_idle now b bs o rest hb]
        simpa using ih rest
    · rw [assignBots_cons_busy now b bs pending hb]
      simpa using ih pending

theorem assignBots_no_idle (now : Nat) (bots : List Bot) (pending : List Order)
    (h : countIdle bots = 0) : assignBots now bots pending = (bots, pending) := by
  induction bots generalizing pending with
  | nil => rfl
  | cons b bs ih =>
    by_cases hb : b.status = BotStatus.idle
    · rw [countIdle_cons_idle bs hb] at h
      omega
    · rw [countIdle_cons_busy bs hb] at h
      rw [assignBots_cons_busy now b bs pending hb, ih pending h]

theorem assignBots_post (now : Nat) (bots : List Bot) (pending : List Order)
    (h : (assignBots now bots pending).2 ≠ []) :
    countIdle (assignBots now bots pending).1 = 0 := by
  induction bots generalizing pending with
  | nil => rfl
  | cons b bs ih =>
    by_cases hb : b.status = BotStatus.idle
    · cases pending with
      | nil =>
        rw [assignBots_pending_nil] at h
        exact absurd rfl h
      | cons o rest =>
        rw [assignBots_cons_idle now b bs o rest hb] at h ⊢
        rw [countIdle_cons_busy _ (by simp)]
        exact ih rest h
    · rw [assignBots_cons_busy now b bs pending hb] at h ⊢
      rw [countIdle_cons_busy _ hb]
      exact ih pending h

theorem newAssignments_self (bots : List Bot) : newAssignments bots bots = [] := by
  induction bots with
  | nil => rfl
  | cons b bs ih =>
    unfold newAssignments at ih ⊢
    simp only [List.zip_cons_cons, List.filterMap_cons]
    have hns : ¬(b.status == BotStatus.idle && b.status == BotStatus.processing) = true := by
      cases hs : b.status <;> simp [hs]
    rw [if_neg hns, ih]

theorem assignBots_newAssignments (now : Nat) (bots : List Bot) (pending : List Order) :
    newAssignments bots (assignBots now bots pending).1 =
      List.zipWith (fun b o => (b.id, some (assignedOrder now b o)))
        ((idleBots bots).take (min (countIdle bots) pending.length))
        (pending.take (min (countIdle bots) pending.length)) := by
  induction bots generalizing pending with
  | nil => simp [assignBots_nil, newAssignments, idleBots]
  | cons b bs ih =>
    by_cases hb : b.status = BotStatus.idle
    · cases pending with
      | nil =>
        rw [assignBots_pending_nil]
        simp [newAssignments_self]
      | cons o rest =>
        rw [assignBots_cons_idle now b bs o rest hb]
        have hhead : (b.status == BotStatus.idle &&
            BotStatus.processing == BotStatus.processing) = true := by
          simp [hb]
        unfold newAssignments
        simp only [List.zip_cons_cons, List.filterMap_cons, hhead, if_pos]
        rw [countIdle_cons_idle bs hb]
        have hidle : idleBots (b :: bs) = b :: idleBots bs := by
          simp [idleBots, List.filter_cons, hb]
        rw [hidle]
        simp only [List.length_cons, Nat.succ_min_succ, List.take_succ_cons,
          List.zipWith_cons_cons]
        have := ih rest
        unfold newAssignments at this
        rw [this]
    · rw [assignBots_cons_busy now b bs pending hb]
      have hhead : ¬(b.status == BotStatus.idle &&
          b.status == BotStatus.processing) = true := by
        simp [hb]
      unfold newAssignments
      simp only [List.zip_cons_cons, List.filterMap_cons, hhead, if_neg]
      have hidle : idleBots (b :: bs) = idleBots bs := by
        simp [idleBots, List.filter_cons, hb]
      rw [hidle, countIdle_cons_busy bs hb]
      have := ih pending
      unfold newAssignments at this
      rw [this]
      simp

theorem mem_zip_self {α : Type} (l : List α) :
    ∀ p ∈ l.zip l, p.2 = p.1 := by
  induction l with
  | nil => simp
  | cons x xs ih =>
    intro p hp
    rcases List.mem_cons.mp (by simpa using hp) with h1 | h1
    · rw [h1]
    · exact ih p h1

theorem assignBots_busy_fixed (now : Nat) (bots : List Bot) (pending : List Order) :
    ∀ p ∈ bots.zip (assignBots now bots pending).1,
      p.1.status = BotStatus.processing → p.2 = p.1 := by
  induction bots generalizing pending with
  | nil => simp [assignBots_nil]
  | cons b bs ih =>
    by_cases hb : b.status = BotStatus.idle
    · cases pending with
      | nil =>
        rw [assignBots_pending_nil]
        intro p hp _
        exact mem_zip_self (b :: bs) p hp
      | cons o rest =>
        rw [assignBots_cons_idle now b bs o rest hb]
        intro p hp hps
        rcases List.mem_cons.mp (by simpa using hp) with h1 | h1
        · subst h1
          rw [hb] at hps
          exact absurd hps (by simp)
        · exact ih rest p h1 hps
    · rw [assignBots_cons_busy now b bs pending hb]
      intro p hp hps
      rcases List.mem_cons.mp (by simpa using hp) with h1 | h1
      · rw [h1]
      · exact ih pending p h1 hps

/-! ### Lemmas about insertion, slot ids and invariant preservation -/

theorem insertOrderToPending_eq_normal {o : Order} (l : List Order)
    (h : o.type = OrderType.normal) : insertOrderToPending o l = l ++ [o] := by
  unfold insertOrderToPending
  rw [h]

theorem insertOrderToPending_eq_vip {o : Order} (l : List Order)
    (h : o.type = OrderType.vip) : insertOrderToPending o l = insertVIPOrder o l := by
  unfold insertOrderToPending
  rw [h]

theorem mem_insertOrderToPending {x o : Order} {l : List Order}
    (h : x ∈ insertOrderToPending o l) : x = o ∨ x ∈ l := by
  cases hty : o.type with
  | normal =>
    rw [insertOrderToPending_eq_normal l hty] at h
    rcases List.mem_append.mp h with h | h
    · exact Or.inr h
    · exact Or.inl (List.mem_singleton.mp h)
  | vip =>
    rw [insertOrderToPending_eq_vip l hty] at h
    unfold insertVIPOrder at h
    rcases List.mem_append.mp h with h | h
    · rcases List.mem_append.mp h with h | h
      · exact Or.inr (List.take_subset _ _ h)
      · exact Or.inl (List.mem_singleton.mp h)
    · exact Or.inr (List.drop_subset _ _ h)

theorem insertOrderToPending_ids (o : Order) (l : List Order) :
    (((insertOrderToPending o l).map Order.id : List Nat) : Multiset Nat) =
      o.id ::ₘ ((l.map Order.id : List Nat) : Multiset Nat) := by
  cases hty : o.type with
  | normal =>
    rw [insertOrderToPending_eq_normal l hty]
    rw [List.map_append, ← Multiset.coe_add]
    simp [Multiset.add_cons]
    rw [show ({o.id} : Multiset Nat) = o.id ::ₘ 0 from rfl, Multiset.add_cons,
      add_zero, Multiset.cons_coe]
  | vip =>
    rw [insertOrderToPending_eq_vip l hty]
    unfold insertVIPOrder
    rw [List.map_append, List.map_append, ← Multiset.coe_add, ← Multiset.coe_add]
    simp [Multiset.add_cons, Multiset.cons_add]
    rw [show ({o.id} : Multiset Nat) = o.id ::ₘ 0 from rfl, Multiset.add_cons,
      Multiset.cons_add, add_zero, Multiset.coe_add, List.take_append_drop,
      Multiset.cons_coe]

theorem slotIdList_cons_none {b : Bot} (bs : List Bot) (h : b.order = none) :
    slotIdList (b :: bs) = slotIdList bs := by
  simp [slotIdList, h]

theorem slotIdList_cons_some {b : Bot} {o : Order} (bs : List Bot)
    (h : b.order = some o) : slotIdList (b :: bs) = o.id :: slotIdList bs := by
  simp [slotIdList, h]

theorem assignBots_ids (now : Nat) (bots : List Bot) (pending : List Order)
    (hclean : ∀ b ∈ bots, b.status = BotStatus.idle → b.order = none) :
    ((slotIdList (assignBots now bots pending).1 : List Nat) : Multiset Nat) +
        ((assignBots now bots pending).2.map Order.id : List Nat) =
      ((slotIdList bots : List Nat) : Multiset Nat) + (pending.map Order.id : List Nat) := by
  induction bots generalizing pending with
  | nil => rw [assignBots_nil]
  | cons b bs ih =>
    by_cases hb : b.status = BotStatus.idle
    · have hnone : b.order = none := hclean b (List.mem_cons_self b bs) hb
      cases pending with
      | nil => rw [assignBots_pending_nil]
      | cons o rest =>
        rw [assignBots_cons_idle now b bs o rest hb]
        rw [slotIdList_cons_some (assignBots now bs rest).1 (show _ = some (assignedOrder now b o) from rfl)]
        rw [slotIdList_cons_none bs hnone]
        have hrec := ih rest fun x hx hs => hclean x (List.mem_cons_of_mem _ hx) hs
        rw [← Multiset.cons_coe, Multiset.cons_add, hrec, List.map_cons,
          ← Multiset.cons_coe, Multiset.add_cons]
        rfl
    · rw [assignBots_cons_busy now b bs pending hb]
      have hrec := ih pending fun x hx hs => hclean x (List.mem_cons_of_mem _ hx) hs
      cases hor : b.order with
      | none =>
        rw [slotIdList_cons_none _ hor, slotIdList_cons_none bs hor]
        exact hrec
      | some o =>
        rw [slotIdList_cons_some _ hor, slotIdList_cons_some bs hor]
        rw [← Multiset.cons_coe, Multiset.cons_add, hrec, ← Multiset.cons_coe,
          Multiset.cons_add]

theorem assignBots_slotOK (now : Nat) (bots : List Bot) (pending : List Order)
    (hbots : ∀ b ∈ bots, slotOK b ∧ 1 ≤ b.id)
    (hpend : ∀ o ∈ pending, pendingOK o) :
    ∀ b ∈ (assignBots now bots pending).1, slotOK b ∧ 1 ≤ b.id := by
  induction bots generalizing pending with
  | nil => simp [assignBots_nil]
  | cons b bs ih =>
    by_cases hb : b.status = BotStatus.idle
    · cases pending with
      | nil =>
        rw [assignBots_pending_nil]
        exact hbots
      | cons o rest =>
        rw [assignBots_cons_idle now b bs o rest hb]
        intro x hx
        rcases List.mem_cons.mp hx with hx | hx
        · subst hx
          refine ⟨?_, (hbots b (List.mem_cons_self b bs)).2⟩
          show slotOK _
          unfold slotOK assignedOrder
          exact ⟨rfl, rfl, rfl⟩
        · exact ih rest (fun y hy => hbots y (List.mem_cons_of_mem _ hy))
            (fun y hy => hpend y (List.mem_cons_of_mem _ hy)) x hx
    · rw [assignBots_cons_busy now b bs pending hb]
      intro x hx
      rcases List.mem_cons.mp hx with hx | hx
      · exact hx ▸ hbots b (List.mem_cons_self b bs)
      · exact ih pending (fun y hy => hbots y (List.mem_cons_of_mem _ hy)) hpend x hx

theorem liveIdList_coe (s : OrderController) :
    ((liveIdList s : List Nat) : Multiset Nat) =
      ((s.pendingOrders.map Order.id : List Nat) : Multiset Nat) +
        ((slotIdList s.bots : List Nat) : Multiset Nat) +
        ((s.completedOrders.map Order.id : List Nat) : Multiset Nat) := by
  unfold liveIdList
  rw [← Multiset.coe_add, ← Multiset.coe_add, add_assoc]

theorem slotIdList_append (l1 l2 : List Bot) :
    slotIdList (l1 ++ l2) = slotIdList l1 ++ slotIdList l2 := by
  unfold slotIdList
  exact List.filterMap_append l1 l2 _

theorem slot_none_of_idle {b : Bot} (hs : slotOK b)
    (hid : b.status = BotStatus.idle) : b.order = none := by
  unfold slotOK at hs
  cases hor : b.order with
  | none => rfl
  | some o =>
    rw [hor] at hs
    rw [hs.1] at hid
    exact absurd hid (by simp)

theorem add_swap_cancel {x y z w c : Multiset Nat} (hxy : y + x = w + z) :
    x + y + c = z + w + c := by
  rw [add_comm x y, hxy, add_comm w z]

theorem assign_inv {s : OrderController} (h : Inv s) : Inv (assignOrdersToBots s) := by
  obtain ⟨h1, h2, h3, h4, h5, h6, h7, h8, h9, h10⟩ := h
  have hclean : ∀ b ∈ s.bots, b.status = BotStatus.idle → b.order = none :=
    fun b hb hid => slot_none_of_idle (h3 b hb).1 hid
  have e1 : (assignOrdersToBots s).pendingOrders =
      (assignBots s.now s.bots s.pendingOrders).2 := rfl
  have e2 : (assignOrdersToBots s).bots =
      (assignBots s.now s.bots s.pendingOrders).1 := rfl
  have e3 : (assignOrdersToBots s).completedOrders = s.completedOrders := rfl
  have e4 : (assignOrdersToBots s).orders = s.orders := rfl
  have e5 : (assignOrdersToBots s).nextOrderID = s.nextOrderID := rfl
  have e6 : (assignOrdersToBots s).nextBotID = s.nextBotID := rfl
  refine ⟨?_, ?_, ?_, ?_, ?_, ?_, ?_, ?_, ?_, ?_⟩
  · rw [e1, assignBots_snd]
    exact partitionedB_drop _ h1
  · rw [e1, assignBots_snd]
    intro o ho
    exact h2 o (List.mem_of_mem_drop ho)
  · rw [e2]
    exact assignBots_slotOK s.now s.bots s.pendingOrders h3 h2
  · rw [e3]
    exact h4
  · rw [e2, assignBots_map_id]
    exact h5
  · rw [e2, e6, assignBots_map_id]
    exact h6
  · rw [e6]
    exact h7
  · have hid := assignBots_ids s.now s.bots s.pendingOrders hclean
    rw [liveIdList_coe] at h8
    rw [liveIdList_coe, e1, e2, e3, e4, ← h8]
    exact add_swap_cancel hid
  · rw [e4]
    exact h9
  · rw [e4, e5]
    exact h10

theorem create_inv_aux {s : OrderController} (t : OrderType) (h : Inv s) :
    Inv { s with
      nextOrderID := s.nextOrderID + 1
      orders := s.orders ++ [s.nextOrderID]
      pendingOrders := insertOrderToPending (newOrder s.nextOrderID t s.now)
        s.pendingOrders } := by
  obtain ⟨h1, h2, h3, h4, h5, h6, h7, h8, h9, h10⟩ := h
  refine ⟨?_, ?_, h3, h4, h5, h6, h7, ?_, ?_, ?_⟩
  · exact partitionedB_insert h1
  · intro o ho
    rcases mem_insertOrderToPending ho with ho | ho
    · subst ho
      exact ⟨rfl, rfl⟩
    · exact h2 o ho
  · show ((liveIdList _ : List Nat) : Multiset Nat) = _
    rw [liveIdList_coe]
    show (((insertOrderToPending (newOrder s.nextOrderID t s.now)
        s.pendingOrders).map Order.id : List Nat) : Multiset Nat) +
      ((slotIdList s.bots : List Nat) : Multiset Nat) +
      ((s.completedOrders.map Order.id : List Nat) : Multiset Nat) =
      ((s.orders ++ [s.nextOrderID] : List Nat) : Multiset Nat)
    rw [insertOrderToPending_ids, Multiset.cons_add, Multiset.cons_add]
    rw [liveIdList_coe] at h8
    rw [h8, ← Multiset.coe_add,
      show (([s.nextOrderID] : List Nat) : Multiset Nat) = s.nextOrderID ::ₘ 0 from rfl,
      Multiset.add_cons, add_zero]
    rfl
  · show (s.orders ++ [s.nextOrderID]).Nodup
    rw [List.nodup_append]
    refine ⟨h9, List.nodup_singleton _, ?_⟩
    intro a ha hb
    rw [List.mem_singleton.mp hb] at ha
    exact absurd (h10 _ ha) (by omega)
  · intro i hi
    rcases List.mem_append.mp hi with hi | hi
    · exact Nat.lt_succ_of_lt (h10 i hi)
    · rw [List.mem_singleton.mp hi]
      exact Nat.lt_succ_self _

theorem createNormal_inv {s : OrderController} (h : Inv s) :
    Inv (createNormalOrder s) := by
  have he : createNormalOrder s = assignOrdersToBots
      { s with
        nextOrderID := s.nextOrderID + 1
        orders := s.orders ++ [s.nextOrderID]
        pendingOrders := insertOrderToPending
          (newOrder s.nextOrderID OrderType.normal s.now) s.pendingOrders } := by
    unfold createNormalOrder
    rw [insertOrderToPending_eq_normal _ rfl]
    rfl
  rw [he]
  exact assign_inv (create_inv_aux OrderType.normal h)

theorem createVIP_inv {s : OrderController} (h : Inv s) :
    Inv (createVIPOrder s) := by
  have he : createVIPOrder s = assignOrdersToBots
      { s with
        nextOrderID := s.nextOrderID + 1
        orders := s.orders ++ [s.nextOrderID]
        pendingOrders := insertOrderToPending
          (newOrder s.nextOrderID OrderType.vip s.now) s.pendingOrders } := by
    unfold createVIPOrder
    rw [insertOrderToPending_eq_vip _ rfl]
    rfl
  rw [he]
  exact assign_inv (create_inv_aux OrderType.vip h)

theorem addBot_inv {s : OrderController} (h : Inv s) : Inv (addBot s) := by
  obtain ⟨h1, h2, h3, h4, h5, h6, h7, h8, h9, h10⟩ := h
  refine assign_inv ⟨h1, h2, ?_, h4, ?_, ?_, ?_, ?_, h9, h10⟩
  · intro b hb
    rcases List.mem_append.mp hb with hb | hb
    · exact h3 b hb
    · rw [List.mem_singleton.mp hb]
      exact ⟨rfl, h7⟩
  · show ((s.bots ++ _).map Bot.id).Pairwise _
    rw [List.map_append, List.pairwise_append]
    refine ⟨h5, by simp, ?_⟩
    intro a ha b hb
    have hb2 : b = s.nextBotID := by simpa using hb
    rw [hb2]
    exact h6 a ha
  · intro i hi
    rw [List.map_append] at hi
    rcases List.mem_append.mp hi with hi | hi
    · exact Nat.lt_succ_of_lt (h6 i hi)
    · have hi2 : i = s.nextBotID := by simpa using hi
      rw [hi2]
      exact Nat.lt_succ_self _
  · exact Nat.le_succ_of_le h7
  · show ((liveIdList _ : List Nat) : Multiset Nat) = _
    rw [liveIdList_coe]
    show _ + ((slotIdList (s.bots ++ [_]) : List Nat) : Multiset Nat) + _ = _
    rw [slotIdList_append]
    have hnb : slotIdList [{ id := s.nextBotID, status := BotStatus.idle, order := none }] = [] := rfl
    rw [hnb, List.append_nil]
    rw [liveIdList_coe] at h8
    exact h8

/-! ### Lemmas about worker removal and completion -/

theorem removeBot_empty {s : OrderController} (h : s.bots = []) :
    removeBot s = s := by
  unfold removeBot removeBotFromList
  rw [h]
  rfl

theorem removeBot_eq_last {s : OrderController} {b : Bot}
    (h : s.bots.getLast? = some b) :
    removeBot s =
      (match stopBotProcessing b with
        | none => assignOrdersToBots { s with bots := s.bots.dropLast }
        | some order =>
            handleProcessingBotRemoval { s with bots := s.bots.dropLast } order) := by
  unfold removeBot removeBotFromList
  rw [h]

theorem stopBotProcessing_none {b : Bot} (hs : slotOK b)
    (h : stopBotProcessing b = none) : b.order = none := by
  cases hor : b.order with
  | none => rfl
  | some o =>
    unfold slotOK at hs
    rw [hor] at hs
    unfold stopBotProcessing at h
    rw [hs.1, hor] at h
    simp at h

theorem stopBotProcessing_some {b : Bot} {o2 : Order}
    (h : stopBotProcessing b = some o2) :
    ∃ oo, b.order = some oo ∧ b.status = BotStatus.processing ∧
      o2 = { oo with status := OrderStatus.pending, botID := 0 } := by
  unfold stopBotProcessing at h
  cases hst : b.status <;> cases hor : b.order <;> rw [hst, hor] at h <;>
    simp at h
  exact ⟨_, rfl, rfl, h.symm⟩

theorem dropLast_concat_of_getLast? {l : List Bot} {b : Bot}
    (h : l.getLast? = some b) : l.dropLast ++ [b] = l := by
  have hne : l ≠ [] := by
    intro hx
    rw [hx] at h
    simp at h
  have h1 := List.dropLast_concat_getLast hne
  rw [List.getLast?_eq_getLast l hne] at h
  rw [Option.some_inj.mp h] at h1
  exact h1

theorem removeBot_inv {s : OrderController} (h : Inv s) : Inv (removeBot s) := by
  cases hl : s.bots.getLast? with
  | none =>
    rw [removeBot_empty (by simpa using hl)]
    exact h
  | some b =>
    have hsplit : s.bots.dropLast ++ [b] = s.bots := dropLast_concat_of_getLast? hl
    obtain ⟨h1, h2, h3, h4, h5, h6, h7, h8, h9, h10⟩ := h
    have hbmem : b ∈ s.bots := by
      rw [← hsplit]
      exact List.mem_append_right _ (List.mem_singleton_self b)
    have hbOK := h3 b hbmem
    have hd3 : ∀ x ∈ s.bots.dropLast, slotOK x ∧ 1 ≤ x.id :=
      fun x hx => h3 x (List.dropLast_subset _ hx)
    have hd5 : (s.bots.dropLast.map Bot.id).Pairwise (fun a b => a < b) := by
      rw [List.map_dropLast]
      exact h5.sublist (List.dropLast_sublist _)
    have hd6 : ∀ i ∈ s.bots.dropLast.map Bot.id, i < s.nextBotID := by
      intro i hi
      rw [List.map_dropLast] at hi
      exact h6 i (List.dropLast_subset _ hi)
    have hslot : ((slotIdList s.bots : List Nat) : Multiset Nat) =
        ((slotIdList s.bots.dropLast : List Nat) : Multiset Nat) +
          ((slotIdList [b] : List Nat) : Multiset Nat) := by
      conv_lhs => rw [← hsplit]
      rw [slotIdList_append, ← Multiset.coe_add]
    rw [removeBot_eq_last hl]
    cases hstop : stopBotProcessing b with
    | none =>
      have hbo : b.order = none := stopBotProcessing_none hbOK.1 hstop
      have hbnil : slotIdList [b] = [] := by simp [slotIdList, hbo]
      refine assign_inv ⟨h1, h2, hd3, h4, hd5, hd6, h7, ?_, h9, h10⟩
      rw [liveIdList_coe] at h8 ⊢
      rw [hslot, hbnil] at h8
      show ((s.pendingOrders.map Order.id : List Nat) : Multiset Nat) +
          ((slotIdList s.bots.dropLast : List Nat) : Multiset Nat) + _ = _
      rw [← h8]
      have hz : ((([] : List Nat) : List Nat) : Multiset Nat) = 0 := rfl
      rw [hz, add_zero]
    | some o2 =>
      obtain ⟨oo, hor, hsb, ho2⟩ := stopBotProcessing_some hstop
      have hbid : slotIdList [b] = [oo.id] := by simp [slotIdList, hor]
      show Inv (assignOrdersToBots _)
      refine assign_inv ⟨partitionedB_insert h1, ?_, hd3, h4, hd5, hd6, h7, ?_, h9, h10⟩
      · intro o ho
        rcases mem_insertOrderToPending ho with ho | ho
        · rw [ho, ho2]
          exact ⟨rfl, rfl⟩
        · exact h2 o ho
      · rw [liveIdList_coe] at h8 ⊢
        rw [hslot, hbid, Multiset.coe_singleton] at h8
        show (((insertOrderToPending o2 s.pendingOrders).map Order.id : List Nat) :
            Multiset Nat) +
            ((slotIdList s.bots.dropLast : List Nat) : Multiset Nat) + _ = _
        rw [insertOrderToPending_ids, ← Multiset.singleton_add, ← h8]
        have ho2id : o2.id = oo.id := by rw [ho2]
        rw [ho2id]
        abel

theorem completeInBots_cons_other {b : Bot} {botID : Nat} (now : Nat)
    (bs : List Bot) (hid : ¬b.id = botID) :
    completeInBots now botID (b :: bs) =
      (b :: (completeInBots now botID bs).1, (completeInBots now botID bs).2) := by
  simp [completeInBots, hid]

theorem completeInBots_cons_found_none {b : Bot} {botID : Nat} (now : Nat)
    (bs : List Bot) (hid : b.id = botID) (hor : b.order = none) :
    completeInBots now botID (b :: bs) = (b :: bs, none) := by
  simp [completeInBots, hid, completeOrderProcessing, hor]

theorem completeInBots_cons_found_some {b : Bot} {botID : Nat} {oo : Order}
    (now : Nat) (bs : List Bot) (hid : b.id = botID) (hor : b.order = some oo) :
    completeInBots now botID (b :: bs) =
      ({ b with order := none, status := BotStatus.idle } :: bs,
        some { oo with status := OrderStatus.complete, completed := some now }) := by
  simp [completeInBots, hid, completeOrderProcessing, hor]

theorem completeInBots_cases (now botID : Nat) (bots : List Bot) :
    completeInBots now botID bots = (bots, none) ∨
    (∃ l1 b l2 oo, bots = l1 ++ b :: l2 ∧ b.id = botID ∧ b.order = some oo ∧
      completeInBots now botID bots =
        (l1 ++ { b with order := none, status := BotStatus.idle } :: l2,
          some { oo with status := OrderStatus.complete, completed := some now })) := by
  induction bots with
  | nil => exact Or.inl rfl
  | cons b bs ih =>
    by_cases hid : b.id = botID
    · cases hor : b.order with
      | none => exact Or.inl (completeInBots_cons_found_none now bs hid hor)
      | some oo =>
        exact Or.inr ⟨[], b, bs, oo, rfl, hid, hor,
          completeInBots_cons_found_some now bs hid hor⟩
    · rcases ih with hc | ⟨l1, bb, l2, oo, hbs, hbid, hbor, hres⟩
      · refine Or.inl ?_
        rw [completeInBots_cons_other now bs hid, hc]
      · refine Or.inr ⟨b :: l1, bb, l2, oo, by rw [hbs]; rfl, hbid, hbor, ?_⟩
        rw [completeInBots_cons_other now bs hid, hres]
        rfl

theorem completeInBots_found (now : Nat) (l1 : List Bot) (b : Bot)
    (l2 : List Bot) (oo : Order) (hfresh : ∀ x ∈ l1, ¬x.id = b.id)
    (hor : b.order = some oo) :
    completeInBots now b.id (l1 ++ b :: l2) =
      (l1 ++ { b with order := none, status := BotStatus.idle } :: l2,
        some { oo with status := OrderStatus.complete, completed := some now }) := by
  induction l1 with
  | nil =>
    show completeInBots now b.id (b :: l2) = _
    rw [completeInBots_cons_found_some now l2 rfl hor]
    rfl
  | cons x xs ih =>
    have hx : ¬x.id = b.id := hfresh x (List.mem_cons_self x xs)
    show completeInBots now b.id (x :: (xs ++ b :: l2)) = _
    rw [completeInBots_cons_other now _ hx,
      ih fun y hy => hfresh y (List.mem_cons_of_mem _ hy)]
    rfl

theorem completeBot_eq_none {s : OrderController} {botID : Nat}
    (h : completeInBots s.now botID s.bots = (s.bots, none)) :
    completeBot s botID = s := by
  unfold completeBot
  rw [h]

theorem completeBot_eq_some {s : OrderController} {botID : Nat}
    {bots2 : List Bot} {o2 : Order}
    (h : completeInBots s.now botID s.bots = (bots2, some o2)) :
    completeBot s botID = finalizeOrderCompletion { s with bots := bots2 } o2 := by
  unfold completeBot
  rw [h]

theorem completeBot_inv {s : OrderController} (botID : Nat) (h : Inv s) :
    Inv (completeBot s botID) := by
  rcases completeInBots_cases s.now botID s.bots with hc |
    ⟨l1, b, l2, oo, hbs, hbid, hbor, hres⟩
  · rw [completeBot_eq_none hc]
    exact h
  · rw [completeBot_eq_some hres]
    obtain ⟨h1, h2, h3, h4, h5, h6, h7, h8, h9, h10⟩ := h
    have hbmem : b ∈ s.bots := by
      rw [hbs]
      exact List.mem_append_right _ (List.mem_cons_self b l2)
    have hbOK := h3 b hbmem
    have hslotb : slotOK b := hbOK.1
    unfold slotOK at hslotb
    rw [hbor] at hslotb
    show Inv (assignOrdersToBots _)
    refine assign_inv ⟨h1, h2, ?_, ?_, ?_, ?_, h7, ?_, h9, h10⟩
    · intro x hx
      rcases List.mem_append.mp hx with hx | hx
      · exact h3 x (by rw [hbs]; exact List.mem_append_left _ hx)
      · rcases List.mem_cons.mp hx with hx | hx
        · rw [hx]
          exact ⟨show slotOK _ from rfl, hbOK.2⟩
        · exact h3 x (by
            rw [hbs]
            exact List.mem_append_right _ (List.mem_cons_of_mem _ hx))
    · intro o ho
      rcases List.mem_append.mp ho with ho | ho
      · exact h4 o ho
      · rw [List.mem_singleton.mp ho]
        refine ⟨rfl, ?_⟩
        show 1 ≤ oo.botID
        rw [hslotb.2.2]
        exact hbOK.2
    · have hmap : ((l1 ++ { b with order := none, status := BotStatus.idle } ::
          l2).map Bot.id) = s.bots.map Bot.id := by
        rw [hbs]
        simp
      rw [hmap]
      exact h5
    · have hmap : ((l1 ++ { b with order := none, status := BotStatus.idle } ::
          l2).map Bot.id) = s.bots.map Bot.id := by
        rw [hbs]
        simp
      rw [hmap]
      exact h6
    · rw [liveIdList_coe] at h8 ⊢
      have hslots : ((slotIdList s.bots : List Nat) : Multiset Nat) =
          ((slotIdList l1 : List Nat) : Multiset Nat) +
            (oo.id ::ₘ ((slotIdList l2 : List Nat) : Multiset Nat)) := by
        rw [hbs, slotIdList_append, slotIdList_cons_some l2 hbor,
          ← Multiset.coe_add, ← Multiset.cons_coe]
      rw [hslots] at h8
      show _ + ((slotIdList (l1 ++ _ :: l2) : List Nat) : Multiset Nat) + _ = _
      rw [slotIdList_append,
        slotIdList_cons_none l2 (show Bot.order _ = none from rfl),
        ← Multiset.coe_add]
      show _ + _ + (((s.completedOrders ++
        [{ oo with status := OrderStatus.complete, completed := some s.now }]).map
          Order.id : List Nat) : Multiset Nat) = _
      rw [List.map_append, ← Multiset.coe_add, ← h8]
      have hmo : List.map Order.id [({ oo with status := OrderStatus.complete, completed := some s.now } : Order)] = [oo.id] := rfl
      rw [hmo, Multiset.coe_singleton, ← Multiset.singleton_add]
      abel

/-! ### The invariant holds in every reachable state -/

theorem step_inv (e : Event) {s : OrderController} (h : Inv s) : Inv (step e s) := by
  have hnow : Inv { s with now := s.now + 1 } := h
  cases e with
  | createNormal => exact createNormal_inv hnow
  | createVIP => exact createVIP_inv hnow
  | addBot => exact addBot_inv hnow
  | removeBot => exact removeBot_inv hnow
  | complete i => exact completeBot_inv i hnow

theorem Inv_init : Inv initController := by
  refine ⟨rfl, ?_, ?_, ?_, ?_, ?_, ?_, rfl, ?_, ?_⟩ <;> simp [initController]

theorem Inv_run (evs : List Event) : Inv (run evs) := by
  suffices h : ∀ (l : List Event) (s : OrderController), Inv s →
      Inv (l.foldl (fun s e => step e s) s) from h evs initController Inv_init
  intro l
  induction l with
  | nil => exact fun s hs => hs
  | cons e l ih => exact fun s hs => ih _ (step_inv e hs)

/-! ### Shape of the pending queue across one step -/

theorem step_pending_shape (e : Event) (s : OrderController) :
    (∃ j, (step e s).pendingOrders = s.pendingOrders.drop j) ∨
    (∃ o j, (step e s).pendingOrders =
      (insertOrderToPending o s.pendingOrders).drop j) := by
  cases e with
  | createNormal =>
    refine Or.inr ⟨newOrder s.nextOrderID OrderType.normal (s.now + 1), ?_⟩
    show ∃ j, (createNormalOrder { s with now := s.now + 1 }).pendingOrders = _
    have he : (createNormalOrder { s with now := s.now + 1 }).pendingOrders =
        (assignBots (s.now + 1) s.bots
          (s.pendingOrders ++ [newOrder s.nextOrderID OrderType.normal (s.now + 1)])).2 := rfl
    rw [he, assignBots_snd, insertOrderToPending_eq_normal _ rfl]
    exact ⟨_, rfl⟩
  | createVIP =>
    refine Or.inr ⟨newOrder s.nextOrderID OrderType.vip (s.now + 1), ?_⟩
    have he : (createVIPOrder { s with now := s.now + 1 }).pendingOrders =
        (assignBots (s.now + 1) s.bots
          (insertVIPOrder (newOrder s.nextOrderID OrderType.vip (s.now + 1))
            s.pendingOrders)).2 := rfl
    show ∃ j, (createVIPOrder { s with now := s.now + 1 }).pendingOrders = _
    rw [he, assignBots_snd, insertOrderToPending_eq_vip _ rfl]
    exact ⟨_, rfl⟩
  | addBot =>
    refine Or.inl ?_
    have he : (addBot { s with now := s.now + 1 }).pendingOrders =
        (assignBots (s.now + 1)
          (s.bots ++ [{ id := s.nextBotID, status := BotStatus.idle, order := none }])
          s.pendingOrders).2 := rfl
    show ∃ j, (addBot { s with now := s.now + 1 }).pendingOrders = _
    rw [he, assignBots_snd]
    exact ⟨_, rfl⟩
  | removeBot =>
    show (∃ j, (removeBot { s with now := s.now + 1 }).pendingOrders =
        s.pendingOrders.drop j) ∨
      (∃ o j, (removeBot { s with now := s.now + 1 }).pendingOrders =
        (insertOrderToPending o s.pendingOrders).drop j)
    cases hl : ({ s with now := s.now + 1 } : OrderController).bots.getLast? with
    | none =>
      refine Or.inl ⟨0, ?_⟩
      rw [removeBot_empty (by simpa using hl)]
      rfl
    | some b =>
      rw [removeBot_eq_last hl]
      cases hstop : stopBotProcessing b with
      | none =>
        exact Or.inl ⟨min (countIdle s.bots.dropLast) s.pendingOrders.length,
          assignBots_snd (s.now + 1) s.bots.dropLast s.pendingOrders⟩
      | some o2 =>
        exact Or.inr ⟨o2, min (countIdle s.bots.dropLast)
            (insertOrderToPending o2 s.pendingOrders).length,
          assignBots_snd (s.now + 1) s.bots.dropLast
            (insertOrderToPending o2 s.pendingOrders)⟩
  | complete i =>
    show (∃ j, (completeBot { s with now := s.now + 1 } i).pendingOrders =
        s.pendingOrders.drop j) ∨
      (∃ o j, (completeBot { s with now := s.now + 1 } i).pendingOrders =
        (insertOrderToPending o s.pendingOrders).drop j)
    rcases completeInBots_cases (s.now + 1) i
        ({ s with now := s.now + 1 } : OrderController).bots with hc |
      ⟨l1, b, l2, oo, hbs, hbid, hbor, hres⟩
    · refine Or.inl ⟨0, ?_⟩
      rw [completeBot_eq_none hc]
      rfl
    · refine Or.inl ?_
      rw [completeBot_eq_some hres]
      exact ⟨min (countIdle (l1 ++ { b with order := none, status := BotStatus.idle } :: l2)) s.pendingOrders.length,
        assignBots_snd (s.now + 1)
          (l1 ++ { b with order := none, status := BotStatus.idle } :: l2)
          s.pendingOrders⟩

/-! ### Claim theorems -/

/-- Claim C1: for every sequence of task creations, reinserts after
preemption, and assignment-pass pops, the pending queue is partitioned
into a VIP prefix followed by a normal suffix, and one further event
changes each class's subsequence only by appending at most one newly
inserted order at the rear and removing from the front, so within each
class the relative insertion order is preserved (each class is
individually FIFO). -/
theorem pending_partition_and_fifo (evs : List Event) :
    partitionedB (run evs).pendingOrders = true ∧
    ∀ (e : Event) (t : OrderType), ∃ ins k, ins.length ≤ 1 ∧
      classFilter t (step e (run evs)).pendingOrders =
        (classFilter t (run evs).pendingOrders ++ ins).drop k := by
  refine ⟨(Inv_run evs).1, ?_⟩
  intro e t
  rcases step_pending_shape e (run evs) with ⟨j, hj⟩ | ⟨o, j, hj⟩
  · obtain ⟨k, hk⟩ := filter_drop (fun x => x.type == t) (run evs).pendingOrders j
    refine ⟨[], k, by simp, ?_⟩
    rw [hj, List.append_nil]
    exact hk
  · obtain ⟨k, hk⟩ :=
      filter_drop (fun x => x.type == t)
        (insertOrderToPending o (run evs).pendingOrders) j
    refine ⟨if o.type = t then [o] else [], k, ?_, ?_⟩
    · split <;> simp
    · rw [hj]
      show List.filter _ _ = _
      rw [hk]
      have hcf := classFilter_insert t o (run evs).pendingOrders
      unfold classFilter at hcf
      rw [hcf]
      rfl

/-- Claim C2: in every reachable state the ids across pending queue,
bot slots and completed set are a permutation of the registry of all
created ids, and both are duplicate-free: every created task lives in
exactly one of the three collections. -/
theorem task_conservation (evs : List Event) :
    List.Perm (liveIdList (run evs)) (run evs).orders ∧
    (liveIdList (run evs)).Nodup ∧ (run evs).orders.Nodup := by
  obtain ⟨h1, h2, h3, h4, h5, h6, h7, h8, h9, h10⟩ := Inv_run evs
  have hperm : List.Perm (liveIdList (run evs)) (run evs).orders :=
    Multiset.coe_eq_coe.mp h8
  exact ⟨hperm, hperm.nodup_iff.mpr h9, h9⟩

/-- Claim C6: one assignment pass pops k = min(#idle bots, #pending)
orders off the head of the pending queue and hands them, in queue
order, to the first k idle bots in pool order; each handed order is
marked processing with the bot id and start time recorded on it, the
pool membership is unchanged, and bots that were already processing are
untouched. -/
theorem assignment_pass_assigns_prefix (s : OrderController) :
    (assignOrdersToBots s).pendingOrders =
      s.pendingOrders.drop (min (countIdle s.bots) s.pendingOrders.length) ∧
    (assignOrdersToBots s).bots.map Bot.id = s.bots.map Bot.id ∧
    newAssignments s.bots (assignOrdersToBots s).bots =
      List.zipWith (fun b o => (b.id, some (assignedOrder s.now b o)))
        ((idleBots s.bots).take (min (countIdle s.bots) s.pendingOrders.length))
        (s.pendingOrders.take (min (countIdle s.bots) s.pendingOrders.length)) ∧
    ∀ p ∈ s.bots.zip (assignOrdersToBots s).bots,
      p.1.status = BotStatus.processing → p.2 = p.1 :=
  ⟨assignBots_snd s.now s.bots s.pendingOrders,
    assignBots_map_id s.now s.bots s.pendingOrders,
    assignBots_newAssignments s.now s.bots s.pendingOrders,
    assignBots_busy_fixed s.now s.bots s.pendingOrders⟩

theorem assignment_pass_assigns_prefix_witness :
    (assignOrdersToBots
      { orders := [1001]
        pendingOrders := [{ id := 1001, type := OrderType.normal, status := OrderStatus.pending, botID := 0, created := some 1, started := none, completed := none }]
        completedOrders := []
        bots := [{ id := 1, status := BotStatus.idle, order := none }]
        nextOrderID := 1002, nextBotID := 2, now := 5 }).pendingOrders = [] ∧
    newAssignments
      [{ id := 1, status := BotStatus.idle, order := none }]
      (assignOrdersToBots
        { orders := [1001]
          pendingOrders := [{ id := 1001, type := OrderType.normal, status := OrderStatus.pending, botID := 0, created := some 1, started := none, completed := none }]
          completedOrders := []
          bots := [{ id := 1, status := BotStatus.idle, order := none }]
          nextOrderID := 1002, nextBotID := 2, now := 5 }).bots =
      [(1, some { id := 1001, type := OrderType.normal, status := OrderStatus.processing, botID := 1, created := some 1, started := some 5, completed := none })] := by
  have h := assignment_pass_assigns_prefix
    { orders := [1001]
      pendingOrders := [{ id := 1001, type := OrderType.normal, status := OrderStatus.pending, botID := 0, created := some 1, started := none, completed := none }]
      completedOrders := []
      bots := [{ id := 1, status := BotStatus.idle, order := none }]
      nextOrderID := 1002, nextBotID := 2, now := 5 }
  exact ⟨h.1.trans (by decide), h.2.2.1.trans (by decide)⟩

theorem assign_noop {s : OrderController}
    (h : countIdle s.bots = 0 ∨ s.pendingOrders = []) :
    assignOrdersToBots s = s := by
  cases h with
  | inl h =>
    show ({ s with
      bots := (assignBots s.now s.bots s.pendingOrders).1
      pendingOrders := (assignBots s.now s.bots s.pendingOrders).2 } :
        OrderController) = s
    rw [assignBots_no_idle s.now s.bots s.pendingOrders h]
  | inr h =>
    show ({ s with
      bots := (assignBots s.now s.bots s.pendingOrders).1
      pendingOrders := (assignBots s.now s.bots s.pendingOrders).2 } :
        OrderController) = s
    rw [h, assignBots_pending_nil, ← h]

/-- Claim C7: the assignment pass is idempotent: with no idle bot or no
pending order it is the identity, a second pass right after a first one
changes nothing, and immediately after a pass no bot is idle while the
pending queue is non-empty. -/
theorem assignment_pass_idempotent (s : OrderController) :
    (countIdle s.bots = 0 ∨ s.pendingOrders = [] → assignOrdersToBots s = s) ∧
    assignOrdersToBots (assignOrdersToBots s) = assignOrdersToBots s ∧
    (countIdle (assignOrdersToBots s).bots = 0 ∨
      (assignOrdersToBots s).pendingOrders = []) := by
  have hpost : countIdle (assignOrdersToBots s).bots = 0 ∨
      (assignOrdersToBots s).pendingOrders = [] := by
    by_cases hp : (assignOrdersToBots s).pendingOrders = []
    · exact Or.inr hp
    · exact Or.inl (assignBots_post s.now s.bots s.pendingOrders hp)
  exact ⟨fun h => assign_noop h, assign_noop hpost, hpost⟩

theorem assignment_pass_idempotent_witness :
    assignOrdersToBots initController = initController ∧
    assignOrdersToBots (assignOrdersToBots initController) =
      assignOrdersToBots initController :=
  ⟨(assignment_pass_idempotent initController).1 (Or.inl (by decide)),
    (assignment_pass_idempotent initController).2.1⟩

/-- Claim C3: insertVIPOrder splices the new order exactly at the index
one past the last pending VIP order (index 0 when none is pending), so
on a partitioned queue it lands after all VIP entries and before all
normal entries; CreateVIPOrder applies exactly this insertion when no
bot can immediately consume; and creating Normal, Normal, VIP, Normal
with no bots yields the pending classes [VIP, Normal, Normal, Normal]. -/
theorem createVIP_insert_position :
    (∀ (o : Order) (l : List Order), insertVIPOrder o l =
      l.take (vipInsertIndex l) ++ [o] ++ l.drop (vipInsertIndex l)) ∧
    (∀ l : List Order, ∀ x ∈ l.drop (vipInsertIndex l),
      x.type = OrderType.normal) ∧
    (∀ l : List Order, vipInsertIndex l = 0 ∨
      ∃ x, l[vipInsertIndex l - 1]? = some x ∧ x.type = OrderType.vip) ∧
    (∀ (o : Order) (l : List Order), partitionedB l = true →
      ∃ v n, l = v ++ n ∧ (∀ x ∈ v, x.type = OrderType.vip) ∧
        (∀ x ∈ n, x.type = OrderType.normal) ∧
        insertVIPOrder o l = v ++ [o] ++ n) ∧
    (∀ s : OrderController, s.bots = [] → (createVIPOrder s).pendingOrders =
      insertVIPOrder (newOrder s.nextOrderID OrderType.vip s.now)
        s.pendingOrders) ∧
    (run [Event.createNormal, Event.createNormal, Event.createVIP,
      Event.createNormal]).pendingOrders.map Order.type =
      [OrderType.vip, OrderType.normal, OrderType.normal, OrderType.normal] := by
  refine ⟨fun o l => rfl, drop_vii_all_normal, ?_, ?_, ?_, by decide⟩
  · intro l
    by_cases h : vipInsertIndex l = 0
    · exact Or.inl h
    · exact Or.inr (vii_pos_last_vip h)
  · intro o l h
    obtain ⟨v, n, hl, hv, hn⟩ := partitionedB_decomp h
    exact ⟨v, n, hl, hv, hn, by rw [hl]; exact insertVIPOrder_decomp o hv hn⟩
  · intro s hb
    show (assignBots s.now s.bots (insertVIPOrder
      (newOrder s.nextOrderID OrderType.vip s.now) s.pendingOrders)).2 = _
    rw [hb, assignBots_nil]

theorem createVIP_insert_position_witness :
    partitionedB [({ id := 7, type := OrderType.normal, status := OrderStatus.pending, botID := 0, created := none, started := none, completed := none } : Order)] = true ∧
    insertVIPOrder { id := 8, type := OrderType.vip, status := OrderStatus.pending, botID := 0, created := none, started := none, completed := none } [{ id := 7, type := OrderType.normal, status := OrderStatus.pending, botID := 0, created := none, started := none, completed := none }] =
      [{ id := 8, type := OrderType.vip, status := OrderStatus.pending, botID := 0, created := none, started := none, completed := none }, { id := 7, type := OrderType.normal, status := OrderStatus.pending, botID := 0, created := none, started := none, completed := none }] ∧
    (createVIPOrder initController).pendingOrders =
      insertVIPOrder (newOrder initController.nextOrderID OrderType.vip
        initController.now) initController.pendingOrders :=
  ⟨by decide,
    (createVIP_insert_position.1
      { id := 8, type := OrderType.vip, status := OrderStatus.pending, botID := 0, created := none, started := none, completed := none }
      [{ id := 7, type := OrderType.normal, status := OrderStatus.pending, botID := 0, created := none, started := none, completed := none }]).trans
      (by decide),
    createVIP_insert_position.2.2.2.2.1 initController rfl⟩

/-- Claim C4: RemoveBot pops exactly the pool tail, which in every
reachable state carries the strictly largest bot id (LIFO on the newest
worker), and on an empty pool it is a benign no-op that returns the
state — pending queue, pool and completed set included — unchanged. -/
theorem removeWorker_lifo (evs : List Event) :
    ((run evs).bots = [] → removeBot (run evs) = run evs) ∧
    ∀ h : (run evs).bots ≠ [],
      (removeBot (run evs)).bots.map Bot.id =
        ((run evs).bots.map Bot.id).dropLast ∧
      ∀ b ∈ (run evs).bots.dropLast,
        b.id < ((run evs).bots.getLast h).id := by
  constructor
  · exact fun h => removeBot_empty h
  · intro h
    obtain ⟨h1, h2, h3, h4, h5, h6, h7, h8, h9, h10⟩ := Inv_run evs
    constructor
    · have hl : (run evs).bots.getLast? =
          some ((run evs).bots.getLast h) :=
        List.getLast?_eq_getLast (run evs).bots h
      rw [removeBot_eq_last hl]
      cases hstop : stopBotProcessing ((run evs).bots.getLast h) with
      | none =>
        show ((assignBots (run evs).now (run evs).bots.dropLast
          (run evs).pendingOrders).1).map Bot.id = _
        rw [assignBots_map_id, List.map_dropLast]
      | some o2 =>
        show ((assignBots (run evs).now (run evs).bots.dropLast
          (insertOrderToPending o2 (run evs).pendingOrders)).1).map Bot.id = _
        rw [assignBots_map_id, List.map_dropLast]
    · intro b hb
      have hlast : (run evs).bots.dropLast ++ [(run evs).bots.getLast h] =
          (run evs).bots := List.dropLast_concat_getLast h
      have hpw := h5
      rw [← hlast, List.map_append, List.pairwise_append] at hpw
      exact hpw.2.2 b.id (List.mem_map_of_mem Bot.id hb) _ (by simp)

theorem removeWorker_lifo_witness :
    removeBot (run []) = run [] ∧
    (removeBot (run [Event.addBot, Event.addBot])).bots.map Bot.id = [1] :=
  ⟨(removeWorker_lifo []).1 rfl,
    ((removeWorker_lifo [Event.addBot, Event.addBot]).2 (by decide)).1.trans
      (by decide)⟩

/-- Claim C5: removing a bot that is processing captures its order,
resets it to PENDING with the owner cleared while keeping its id, class
and creation time, and reinserts it through insertOrderToPending — the
identical rule used by a fresh same-class creation — whose resulting
position depends only on the class and the current queue. -/
theorem preempted_task_reinsertion (s : OrderController) (l : List Bot)
    (b : Bot) (oo : Order) (hb : s.bots = l ++ [b])
    (hst : b.status = BotStatus.processing) (hor : b.order = some oo) :
    removeBot s = assignOrdersToBots { s with
      bots := l
      pendingOrders := insertOrderToPending { oo with status := OrderStatus.pending, botID := 0 } s.pendingOrders } ∧
    ({ oo with status := OrderStatus.pending, botID := 0 } : Order).id = oo.id ∧
    ({ oo with status := OrderStatus.pending, botID := 0 } : Order).type = oo.type ∧
    ({ oo with status := OrderStatus.pending, botID := 0 } : Order).created = oo.created ∧
    (∀ (o1 o2 : Order) (q : List Order), o1.type = o2.type →
      ∃ k, insertOrderToPending o1 q = q.take k ++ [o1] ++ q.drop k ∧
        insertOrderToPending o2 q = q.take k ++ [o2] ++ q.drop k) := by
  refine ⟨?_, rfl, rfl, rfl, ?_⟩
  · have hl : s.bots.getLast? = some b := by
      rw [hb]
      exact List.getLast?_concat l
    rw [removeBot_eq_last hl]
    have hstop : stopBotProcessing b =
        some { oo with status := OrderStatus.pending, botID := 0 } := by
      unfold stopBotProcessing
      rw [hst, hor]
    rw [hstop]
    have hdrop : s.bots.dropLast = l := by
      rw [hb]
      exact List.dropLast_concat
    show assignOrdersToBots { s with
      bots := s.bots.dropLast
      pendingOrders := insertOrderToPending { oo with status := OrderStatus.pending, botID := 0 } s.pendingOrders } = _
    rw [hdrop]
  · intro o1 o2 q hty
    cases ht1 : o1.type with
    | normal =>
      have ht2 : o2.type = OrderType.normal := hty.symm.trans ht1
      refine ⟨q.length, ?_, ?_⟩
      · rw [insertOrderToPending_eq_normal q ht1, List.take_length,
          List.drop_length, List.append_nil]
      · rw [insertOrderToPending_eq_normal q ht2, List.take_length,
          List.drop_length, List.append_nil]
    | vip =>
      have ht2 : o2.type = OrderType.vip := hty.symm.trans ht1
      exact ⟨vipInsertIndex q,
        by rw [insertOrderToPending_eq_vip q ht1]; rfl,
        by rw [insertOrderToPending_eq_vip q ht2]; rfl⟩

theorem preempted_task_reinsertion_witness :
    removeBot
      { orders := [1001]
        pendingOrders := []
        completedOrders := []
        bots := [{ id := 1, status := BotStatus.processing, order := some { id := 1001, type := OrderType.normal, status := OrderStatus.processing, botID := 1, created := some 1, started := some 2, completed := none } }]
        nextOrderID := 1002, nextBotID := 2, now := 9 } =
      assignOrdersToBots
        { orders := [1001]
          pendingOrders := insertOrderToPending { id := 1001, type := OrderType.normal, status := OrderStatus.pending, botID := 0, created := some 1, started := some 2, completed := none } []
          completedOrders := []
          bots := []
          nextOrderID := 1002, nextBotID := 2, now := 9 } :=
  (preempted_task_reinsertion
    { orders := [1001]
      pendingOrders := []
      completedOrders := []
      bots := [{ id := 1, status := BotStatus.processing, order := some { id := 1001, type := OrderType.normal, status := OrderStatus.processing, botID := 1, created := some 1, started := some 2, completed := none } }]
      nextOrderID := 1002, nextBotID := 2, now := 9 }
    [] { id := 1, status := BotStatus.processing, order := some { id := 1001, type := OrderType.normal, status := OrderStatus.processing, botID := 1, created := some 1, started := some 2, completed := none } }
    { id := 1001, type := OrderType.normal, status := OrderStatus.processing, botID := 1, created := some 1, started := some 2, completed := none }
    rfl rfl rfl).1

/-- Claim C8: when a bot's fixed duration elapses without cancellation,
the completion path marks its order COMPLETE with the completion time
recorded, appends it to the completed set, sets the bot back to idle
with its current-task slot cleared, and then invokes the assignment
pass on the resulting state. -/
theorem completion_path (s : OrderController) (l1 : List Bot) (b : Bot)
    (l2 : List Bot) (oo : Order) (hb : s.bots = l1 ++ b :: l2)
    (hfresh : ∀ x ∈ l1, ¬x.id = b.id) (hor : b.order = some oo) :
    completeBot s b.id = assignOrdersToBots { s with
      bots := l1 ++ { b with order := none, status := BotStatus.idle } :: l2
      completedOrders := s.completedOrders ++ [{ oo with status := OrderStatus.complete, completed := some s.now }] } := by
  have hc : completeInBots s.now b.id s.bots =
      (l1 ++ { b with order := none, status := BotStatus.idle } :: l2,
        some { oo with status := OrderStatus.complete, completed := some s.now }) := by
    rw [hb]
    exact completeInBots_found s.now l1 b l2 oo hfresh hor
  rw [completeBot_eq_some hc]
  rfl

theorem completion_path_witness :
    completeBot
      { orders := [1001]
        pendingOrders := []
        completedOrders := []
        bots := [{ id := 1, status := BotStatus.processing, order := some { id := 1001, type := OrderType.normal, status := OrderStatus.processing, botID := 1, created := some 1, started := some 2, completed := none } }]
        nextOrderID := 1002, nextBotID := 2, now := 12 } 1 =
      assignOrdersToBots
        { orders := [1001]
          pendingOrders := []
          completedOrders := [{ id := 1001, type := OrderType.normal, status := OrderStatus.complete, botID := 1, created := some 1, started := some 2, completed := some 12 }]
          bots := [{ id := 1, status := BotStatus.idle, order := none }]
          nextOrderID := 1002, nextBotID := 2, now := 12 } :=
  completion_path
    { orders := [1001]
      pendingOrders := []
      completedOrders := []
      bots := [{ id := 1, status := BotStatus.processing, order := some { id := 1001, type := OrderType.normal, status := OrderStatus.processing, botID := 1, created := some 1, started := some 2, completed := none } }]
      nextOrderID := 1002, nextBotID := 2, now := 12 }
    [] { id := 1, status := BotStatus.processing, order := some { id := 1001, type := OrderType.normal, status := OrderStatus.processing, botID := 1, created := some 1, started := some 2, completed := none } }
    [] { id := 1001, type := OrderType.normal, status := OrderStatus.processing, botID := 1, created := some 1, started := some 2, completed := none }
    rfl (by simp) rfl

/-- Claim C9 (divergence demonstration): with one bot processing order
1001, RemoveBot reinserts 1001 into pending, yet the duration-elapsed
branch of the processing goroutine — which Go's select may pick even
when the stop signal is ready, since the removal path never clears the
captured bot's slot — still reports 1001 completed, so the race is not
resolved deterministically in favour of cancellation: the same order
ends up both pending and completed. -/
theorem cancellation_race_counterexample :
    (run [Event.createNormal, Event.addBot]).bots =
      [{ id := 1, status := BotStatus.processing, order := some { id := 1001, type := OrderType.normal, status := OrderStatus.processing, botID := 1, created := some 1, started := some 2, completed := none } }] ∧
    (step Event.removeBot (run [Event.createNormal, Event.addBot])).pendingOrders.map Order.id = [1001] ∧
    (raceTimerWins (step Event.removeBot (run [Event.createNormal, Event.addBot]))
      { id := 1, status := BotStatus.processing, order := some { id := 1001, type := OrderType.normal, status := OrderStatus.processing, botID := 1, created := some 1, started := some 2, completed := none } }).pendingOrders.map Order.id = [1001] ∧
    (raceTimerWins (step Event.removeBot (run [Event.createNormal, Event.addBot]))
      { id := 1, status := BotStatus.processing, order := some { id := 1001, type := OrderType.normal, status := OrderStatus.processing, botID := 1, created := some 1, started := some 2, completed := none } }).completedOrders.map
      (fun o => (o.id, o.status == OrderStatus.complete)) = [(1001, true)] := by
  exact ⟨by decide, by decide, by decide, by decide⟩

/-- Claim C10 (counterexample): after creating an order, adding a bot
and letting it complete, the completed order keeps ownerWorkerId 1
while its status is COMPLETE — ownerWorkerId is non-zero although the
task is not Processing, refuting "non-zero exactly while Processing". -/
theorem ownerWorkerId_completed_nonzero :
    (run [Event.createNormal, Event.addBot, Event.complete 1]).completedOrders.map
      (fun o => (o.botID, o.status == OrderStatus.processing)) = [(1, false)] ∧
    (run [Event.createNormal, Event.addBot, Event.complete 1]).completedOrders.map
      Order.status = [OrderStatus.complete] := by
  exact ⟨by decide, by decide⟩

/-- Claim C10 (amended): bot ids are allocated from 1 upward; a task's
ownerWorkerId is 0 exactly while it sits in the pending queue (set at
creation and cleared at preemption), equals the owning bot's positive
id while Processing, and remains that positive id once Completed, so
the sentinel 0 never collides with a real bot id. -/
theorem worker_id_sentinel (evs : List Event) :
    1 ≤ (run evs).nextBotID ∧
    (∀ b ∈ (run evs).bots, 1 ≤ b.id) ∧
    (∀ o ∈ (run evs).pendingOrders,
      o.botID = 0 ∧ o.status = OrderStatus.pending) ∧
    (∀ b ∈ (run evs).bots, ∀ o, b.order = some o →
      o.botID = b.id ∧ 1 ≤ o.botID ∧ o.status = OrderStatus.processing) ∧
    (∀ o ∈ (run evs).completedOrders,
      1 ≤ o.botID ∧ o.status = OrderStatus.complete) := by
  obtain ⟨h1, h2, h3, h4, h5, h6, h7, h8, h9, h10⟩ := Inv_run evs
  refine ⟨h7, fun b hb => (h3 b hb).2,
    fun o ho => ⟨(h2 o ho).2, (h2 o ho).1⟩, ?_,
    fun o ho => ⟨(h4 o ho).2, (h4 o ho).1⟩⟩
  intro b hb o hoo
  have hs := (h3 b hb).1
  unfold slotOK at hs
  rw [hoo] at hs
  refine ⟨hs.2.2, ?_, hs.2.1⟩
  rw [hs.2.2]
  exact (h3 b hb).2

theorem worker_id_sentinel_witness :
    (run [Event.addBot]).nextBotID = 2 ∧ 1 ≤ (run [Event.addBot]).nextBotID :=
  ⟨by decide, (worker_id_sentinel [Event.addBot]).1⟩

end FeedMe
